import Mathlib

/-!
Verification of the QR-health edit-request approval engine.

The definitions below are a shallow embedding of the server route handlers in
`src/server/routes/admin.js` and of the client-side diff renderer
`formatChanges` / `fetchRequests` in `src/client/src/pages/AdminRequests.jsx`.
JavaScript objects are modelled as association lists of JSON values in
insertion order; Mongoose persistence is modelled as explicit state passing on
a `Store`, with a boolean success oracle for each fallible `save()` call.
-/

/-- A JSON value as stored in a Mongo document or an HTTP payload.
Objects keep their fields in insertion order, as JavaScript does. -/
inductive JsonVal where
  | null
  | bool (b : Bool)
  | num (n : Int)
  | str (s : String)
  | obj (fields : List (String × JsonVal))
deriving Repr

/-- JavaScript truthiness of a JSON value (`undefined` is handled at the
`Option` layer by the callers). -/
def JsonVal.truthy : JsonVal → Bool
  | .null => false
  | .bool b => b
  | .num n => n != 0
  | .str s => s != ""
  | .obj _ => true

mutual
/-- Structural equality of JSON values; embeds the
`JSON.stringify(a) === JSON.stringify(b)` comparison used by the client
(canonical serialization is injective on these values, and preserves the
insertion order of object keys). -/
def JsonVal.beq : JsonVal → JsonVal → Bool
  | .null, .null => true
  | .bool a, .bool b => a == b
  | .num a, .num b => a == b
  | .str a, .str b => a == b
  | .obj a, .obj b => JsonVal.beqFields a b
  | _, _ => false

/-- Field-list part of `JsonVal.beq`. -/
def JsonVal.beqFields : List (String × JsonVal) → List (String × JsonVal) → Bool
  | [], [] => true
  | (k1, v1) :: t1, (k2, v2) :: t2 =>
      k1 == k2 && JsonVal.beq v1 v2 && JsonVal.beqFields t1 t2
  | _, _ => false
end

/-- JavaScript property read `v[k]`: a lookup on objects, `undefined` (here
`none`) on every other value. -/
def JsonVal.getField : JsonVal → String → Option JsonVal
  | .obj fs, k => (fs.find? (fun p => p.1 == k)).map Prod.snd
  | _, _ => none

/-- Property read on a document's field list (`doc[k]`). -/
def lookupField (o : List (String × JsonVal)) (k : String) : Option JsonVal :=
  (o.find? (fun p => p.1 == k)).map Prod.snd

/-- JavaScript property write `o[k] = v`: an existing key keeps its position
and gets the new value, a fresh key is appended. -/
def setField (o : List (String × JsonVal)) (k : String) (v : JsonVal) :
    List (String × JsonVal) :=
  if o.any (fun p => p.1 == k) then
    o.map (fun p => if p.1 == k then (k, v) else p)
  else o ++ [(k, v)]

/-- `Object.assign(target, source)` (line 84 of `admin.js`): every own key of
`source` is written onto `target` in order, shallowly — an object-valued
source field replaces the whole target field. -/
def objAssign (target source : List (String × JsonVal)) :
    List (String × JsonVal) :=
  source.foldl (fun acc kv => setField acc kv.1 kv.2) target

/-- Status of a `PatientEditRequest` document. -/
inductive Status where
  | pending
  | approved
  | rejected
deriving DecidableEq, Repr

/-- A `Patient` document: its Mongo id and its fields (including ownership
fields such as `hospital`). -/
structure Patient where
  id : Nat
  fields : List (String × JsonVal)
deriving Repr

/-- A `PatientEditRequest` document. -/
structure EditRequest where
  id : Nat
  patientId : Nat
  requestedChanges : List (String × JsonVal)
  status : Status
  createdAt : Nat
deriving Repr

/-- The persisted state seen by the admin routes. -/
structure Store where
  patients : List Patient
  requests : List EditRequest
deriving Repr

/-- The error outcomes of the admin routes: 403 from `ensureSuperAdmin`,
the two 404s, the 400 "Request is already processed", and a rejected
`save()` promise propagated through `next(error)`. -/
inductive ErrKind where
  | forbidden
  | requestNotFound
  | patientNotFound
  | alreadyProcessed
  | saveError
deriving DecidableEq, Repr

/-- `POST /api/admin/requests/:id/approve` (lines 57–99 of `admin.js`).
`patientSaveOk` and `requestSaveOk` are oracles for the success of the two
`await ….save()` calls; a failed save throws, so the handler stops with the
mutations persisted so far. On success the handler responds with the updated
patient's fields. -/
def approveRun (role : String) (s : Store) (reqId : Nat)
    (patientSaveOk requestSaveOk : Bool) :
    Except ErrKind (List (String × JsonVal)) × Store :=
  if role ≠ "SUPER_ADMIN" then (.error .forbidden, s)
  else
    match s.requests.find? (fun r => r.id == reqId) with
    | none => (.error .requestNotFound, s)
    | some r =>
      if r.status ≠ .pending then (.error .alreadyProcessed, s)
      else
        match s.patients.find? (fun p => p.id == r.patientId) with
        | none => (.error .patientNotFound, s)
        | some p =>
          let newFields := objAssign p.fields r.requestedChanges
          if ¬ patientSaveOk then (.error .saveError, s)
          else
            let savedPatients :=
              s.patients.map (fun q => if q.id == p.id then { q with fields := newFields } else q)
            let s1 : Store := { s with patients := savedPatients }
            if ¬ requestSaveOk then (.error .saveError, s1)
            else
              let savedRequests :=
                s1.requests.map (fun q => if q.id == r.id then { q with status := .approved } else q)
              (.ok newFields, { s1 with requests := savedRequests })

/-- `POST /api/admin/requests/:id/reject` (lines 104–133 of `admin.js`). -/
def rejectRun (role : String) (s : Store) (reqId : Nat) :
    Except ErrKind Unit × Store :=
  if role ≠ "SUPER_ADMIN" then (.error .forbidden, s)
  else
    match s.requests.find? (fun r => r.id == reqId) with
    | none => (.error .requestNotFound, s)
    | some r =>
      if r.status ≠ .pending then (.error .alreadyProcessed, s)
      else
        let savedRequests :=
          s.requests.map (fun q => if q.id == r.id then { q with status := .rejected } else q)
        (.ok (), { s with requests := savedRequests })

/-- The `PENDING`-status filter of `PatientEditRequest.find({status:'PENDING'})`
and `countDocuments({status:'PENDING'})`. -/
def pendingOf (s : Store) : List EditRequest :=
  s.requests.filter (fun r => r.status == .pending)

/-- The order of `sort({createdAt: -1})`: `a` comes no later than `b` when
`a` is at least as new. -/
def newerEq (a b : EditRequest) : Prop := b.createdAt ≤ a.createdAt

instance : DecidableRel newerEq := fun _ _ => Nat.decLe _ _

instance : IsTotal EditRequest newerEq :=
  ⟨fun a b => (le_total b.createdAt a.createdAt).imp id id⟩

instance : IsTrans EditRequest newerEq :=
  ⟨fun _ _ _ hab hbc => le_trans hbc hab⟩

/-- `sort({createdAt: -1})`: the pending requests ordered newest first
(a stable sort by descending `createdAt`). -/
def sortDesc (l : List EditRequest) : List EditRequest :=
  l.insertionSort newerEq

/-- `.populate('patient')`: attaches the referenced patient document, or
`null` (here `none`) when the reference no longer resolves. -/
def populateP (s : Store) (r : EditRequest) : EditRequest × Option Patient :=
  (r, s.patients.find? (fun p => p.id == r.patientId))

/-- The payload of `GET /api/admin/requests` for an authorized caller:
all PENDING requests, newest first, each populated with its patient. -/
def serverPendingList (s : Store) : List (EditRequest × Option Patient) :=
  (sortDesc (pendingOf s)).map (populateP s)

/-- `GET /api/admin/requests` (lines 22–37 of `admin.js`), including the
`ensureSuperAdmin` middleware. Read-only: the store is unchanged. -/
def getRequestsRoute (role : String) (s : Store) :
    Except ErrKind (List (EditRequest × Option Patient)) :=
  if role ≠ "SUPER_ADMIN" then .error .forbidden
  else .ok (serverPendingList s)

/-- `GET /api/admin/requests/count` (lines 42–52 of `admin.js`). -/
def getCountRoute (role : String) (s : Store) : Except ErrKind Nat :=
  if role ≠ "SUPER_ADMIN" then .error .forbidden
  else .ok (pendingOf s).length

/-- The client's filter in `fetchRequests` (`AdminRequests.jsx` line 19):
`response.data.requests.filter(req => req.patient)` drops requests whose
populated patient is `null`. -/
def fetchRequestsClient (resp : List (EditRequest × Option Patient)) :
    List (EditRequest × Option Patient) :=
  resp.filter (fun x => x.2.isSome)

/-- The pending-request view reaching the admin UI: the server route's
payload after the client-side orphan filter. -/
def adminPendingView (s : Store) : List (EditRequest × Option Patient) :=
  fetchRequestsClient (serverPendingList s)

/-- The combined server-plus-client listing pipeline. -/
def listPendingCombined (role : String) (s : Store) :
    Except ErrKind (List (EditRequest × Option Patient)) :=
  (getRequestsRoute role s).map fetchRequestsClient

/-- JavaScript `String(v)` conversion, used when rendering a change cell. -/
def jsToString : JsonVal → String
  | .null => "null"
  | .bool b => if b then "true" else "false"
  | .num n => toString n
  | .str s => s
  | .obj _ => "[object Object]"

/-- The old-value cell `String(x || 'N/A')` (lines 75 and 98 of
`AdminRequests.jsx`): a falsy or absent (`none`, i.e. undefined) old value
renders as the `'N/A'` sentinel. -/
def renderOld : Option JsonVal → String
  | none => "N/A"
  | some v => if v.truthy then jsToString v else "N/A"

/-- `oldValue ? oldValue[subKey] : 'N/A'` (line 68 of `AdminRequests.jsx`):
the value feeding a nested row's old cell. A truthy current field is indexed;
a falsy or undefined one yields the literal string `'N/A'`. -/
def subOldOf (oldValue : Option JsonVal) (subKey : String) : Option JsonVal :=
  match oldValue with
  | some ov => if ov.truthy then ov.getField subKey else some (.str "N/A")
  | none => some (.str "N/A")

/-- `JSON.stringify(a) === JSON.stringify(b)` where `a` may be undefined
(`JSON.stringify(undefined)` is undefined, never equal to a serialized
string). -/
def stringifyEq : Option JsonVal → JsonVal → Bool
  | none, _ => false
  | some a, b => JsonVal.beq a b

/-- JavaScript strict equality `oldValue === newValue` (line 90 of
`AdminRequests.jsx`) between the record's current value (possibly undefined)
and a proposed value. Scalars compare by value; operands of different types,
and object operands (the two documents never share a reference), compare
unequal. -/
def jsStrictEq : Option JsonVal → JsonVal → Bool
  | none, _ => false
  | some .null, .null => true
  | some (.bool a), .bool b => a == b
  | some (.num a), .num b => a == b
  | some (.str a), .str b => a == b
  | some _, _ => false

/-- One rendered block of the requested-changes panel: a nested-field
container with its differing sub-rows, or a flat old/new card. -/
inductive RenderedChange where
  | nested (field : String) (rows : List (String × Option JsonVal × JsonVal))
  | flat (field : String) (oldValue : Option JsonVal) (newValue : JsonVal)
deriving Repr

/-- One iteration of the nested-row map (lines 67–83 of `AdminRequests.jsx`):
the row renders only when the stringified old and new sub-values differ. -/
def rowEntry (oldValue : Option JsonVal) (kv : String × JsonVal) :
    Option (String × Option JsonVal × JsonVal) :=
  if stringifyEq (subOldOf oldValue kv.1) kv.2 then none
  else some (kv.1, subOldOf oldValue kv.1, kv.2)

/-- The sub-rows of a nested block: one row per sub-key whose stringified old
and new values differ. -/
def nestedRows (oldValue : Option JsonVal) (subs : List (String × JsonVal)) :
    List (String × Option JsonVal × JsonVal) :=
  subs.filterMap (rowEntry oldValue)

/-- One iteration of `formatChanges`'s `Object.entries(changes).map`: an
object-valued proposal always yields a nested container block; a flat
proposal yields a card unless it strictly equals the current value (the
`null` returns are dropped by React). -/
def renderEntry (patient : List (String × JsonVal)) (kv : String × JsonVal) :
    Option RenderedChange :=
  match kv.2 with
  | .obj subs => some (.nested kv.1 (nestedRows (lookupField patient kv.1) subs))
  | nv =>
      if jsStrictEq (lookupField patient kv.1) nv then none
      else some (.flat kv.1 (lookupField patient kv.1) nv)

/-- `formatChanges` (lines 54–108 of `AdminRequests.jsx`), as the sequence of
blocks that actually render. -/
def formatChanges (changes patient : List (String × JsonVal)) :
    List RenderedChange :=
  changes.filterMap (renderEntry patient)

/-- The field name a rendered block is labelled with. -/
def RenderedChange.field : RenderedChange → String
  | .nested k _ => k
  | .flat k _ _ => k

/-- Whether `formatChanges` renders a block for a proposed entry: always for
an object-valued proposal, otherwise exactly when the strict comparison with
the current value fails. -/
def shouldEmit (patient : List (String × JsonVal)) (kv : String × JsonVal) :
    Bool :=
  match kv.2 with
  | .obj _ => true
  | nv => !(jsStrictEq (lookupField patient kv.1) nv)

/-! ### Concrete fixtures -/

/-- Scenario B record: `{name:"Alice", contact:{phone:"111", email:"a@x.com"}}`. -/
def alicePatient : Patient :=
  { id := 10,
    fields := [("name", .str "Alice"),
               ("contact", .obj [("phone", .str "111"), ("email", .str "a@x.com")])] }

/-- Scenario B request: proposes `{contact:{phone:"222"}}`. -/
def contactRequest : EditRequest :=
  { id := 1, patientId := 10,
    requestedChanges := [("contact", .obj [("phone", .str "222")])],
    status := .pending, createdAt := 100 }

/-- The Scenario B store. -/
def scenarioBStore : Store :=
  { patients := [alicePatient], requests := [contactRequest] }

/-- A record whose `hospital` field records its owning organization. -/
def ownedPatient : Patient :=
  { id := 20, fields := [("fullName", .str "Bob"), ("hospital", .num 1)] }

/-- A crafted payload that rewrites the ownership field `hospital`. -/
def hijackRequest : EditRequest :=
  { id := 2, patientId := 20,
    requestedChanges := [("hospital", .num 999)],
    status := .pending, createdAt := 7 }

/-- Store holding the crafted-payload request. -/
def hijackStore : Store :=
  { patients := [ownedPatient], requests := [hijackRequest] }

/-! ### Theorems -/

/-- C1 counterexample (Scenario B): approving `{contact:{phone:"222"}}` on
`{name:"Alice", contact:{phone:"111", email:"a@x.com"}}` succeeds, but the
stored `contact` becomes exactly `{phone:"222"}` — the unmentioned sub-key
`email` is dropped, not preserved as the claim states. -/
theorem approve_drops_nested_siblings_cex :
    (approveRun "SUPER_ADMIN" scenarioBStore 1 true true).1 =
      .ok [("name", .str "Alice"), ("contact", .obj [("phone", .str "222")])] ∧
    ((approveRun "SUPER_ADMIN" scenarioBStore 1 true true).2.patients.find?
        (fun p => p.id == 10)).map (fun p => lookupField p.fields "contact") =
      some (some (.obj [("phone", .str "222")])) :=
  ⟨rfl, rfl⟩

/-- C2 counterexample: a proposed key may be any property whatsoever — here
the ownership field `hospital` — and approval succeeds and copies it onto the
record; no `InvalidFieldError` exists in the handler at all. -/
theorem approve_no_schema_check_cex :
    (approveRun "SUPER_ADMIN" hijackStore 2 true true).1 =
      .ok [("fullName", .str "Bob"), ("hospital", .num 999)] ∧
    ((approveRun "SUPER_ADMIN" hijackStore 2 true true).2.patients.find?
        (fun p => p.id == 20)).map (fun p => lookupField p.fields "hospital") =
      some (some (.num 999)) :=
  ⟨rfl, rfl⟩

/-! ### Helper lemmas -/

/-- `find?` commutes with a map that does not change the tested predicate. -/
theorem find?_map_keyed {α : Type} (l : List α) (p : α → Bool) (f : α → α)
    (hf : ∀ q, p (f q) = p q) :
    (l.map f).find? p = (l.find? p).map f := by
  have hcomp : p ∘ f = p := funext fun q => hf q
  rw [List.find?_map, hcomp]

/-- Writing key `k` makes a lookup of `k` return the written value. -/
theorem lookupField_setField_self (o : List (String × JsonVal)) (k : String)
    (v : JsonVal) : lookupField (setField o k v) k = some v := by
  unfold setField
  by_cases h : o.any (fun p => p.1 == k)
  · rw [if_pos h]
    unfold lookupField
    rw [List.find?_map]
    have hcomp : ((fun p : String × JsonVal => p.1 == k) ∘
        (fun p => if p.1 == k then (k, v) else p)) =
        (fun p : String × JsonVal => p.1 == k) := by
      funext p
      by_cases hp : p.1 = k
      · simp [hp]
      · simp [hp]
    rw [hcomp]
    have hs : (o.find? (fun p => p.1 == k)).isSome :=
      List.find?_isSome.mpr (by simpa using List.any_eq_true.mp h)
    obtain ⟨q, hq⟩ := Option.isSome_iff_exists.mp hs
    rw [hq]
    have hqk := List.find?_some hq
    simp only [beq_iff_eq] at hqk
    simp [hqk]
  · rw [if_neg h]
    unfold lookupField
    rw [List.find?_append]
    have hnone : o.find? (fun p => p.1 == k) = none :=
      List.find?_eq_none.mpr (fun x hx hxk => h (List.any_eq_true.mpr ⟨x, hx, hxk⟩))
    rw [hnone]
    simp

/-- Writing a different key leaves a lookup of `k` unchanged. -/
theorem lookupField_setField_ne (o : List (String × JsonVal)) (k k' : String)
    (v : JsonVal) (h : k' ≠ k) :
    lookupField (setField o k' v) k = lookupField o k := by
  unfold setField
  by_cases ha : o.any (fun p => p.1 == k')
  · rw [if_pos ha]
    unfold lookupField
    rw [List.find?_map]
    have hcomp : ((fun p : String × JsonVal => p.1 == k) ∘
        (fun p => if p.1 == k' then (k', v) else p)) =
        (fun p : String × JsonVal => p.1 == k) := by
      funext p
      by_cases hp : p.1 = k'
      · simp [hp]
      · simp [hp]
    rw [hcomp]
    cases hfind : o.find? (fun p => p.1 == k) with
    | none => simp
    | some q =>
      have hq := List.find?_some hfind
      simp only [beq_iff_eq] at hq
      have hne : q.1 ≠ k' := by rw [hq]; exact fun he => h he.symm
      simp [hne]
  · rw [if_neg ha]
    unfold lookupField
    rw [List.find?_append]
    cases hfind : o.find? (fun p => p.1 == k) with
    | some q => simp
    | none => simp [List.find?_cons, h]

/-- `Object.assign` leaves keys outside the source untouched. -/
theorem lookupField_objAssign_of_not_mem (c : List (String × JsonVal))
    (o : List (String × JsonVal)) (k : String) (h : k ∉ c.map Prod.fst) :
    lookupField (objAssign o c) k = lookupField o k := by
  induction c generalizing o with
  | nil => rfl
  | cons hd t ih =>
    simp only [List.map_cons, List.mem_cons, not_or] at h
    have step : objAssign o (hd :: t) = objAssign (setField o hd.1 hd.2) t := rfl
    rw [step, ih _ h.2, lookupField_setField_ne _ _ _ _ (fun he => h.1 he.symm)]

/-- `Object.assign` sets every source key to exactly its source value
(source keys are distinct, as the own keys of a JavaScript object are). -/
theorem lookupField_objAssign_of_mem (c : List (String × JsonVal))
    (o : List (String × JsonVal)) (k : String) (v : JsonVal)
    (hnd : (c.map Prod.fst).Nodup) (hm : (k, v) ∈ c) :
    lookupField (objAssign o c) k = some v := by
  induction c generalizing o with
  | nil => cases hm
  | cons hd t ih =>
    simp only [List.map_cons, List.nodup_cons] at hnd
    have step : objAssign o (hd :: t) = objAssign (setField o hd.1 hd.2) t := rfl
    rcases List.mem_cons.mp hm with heq | ht
    · rw [step, ← heq]
      rw [← heq] at hnd
      rw [lookupField_objAssign_of_not_mem t _ k hnd.1]
      exact lookupField_setField_self o k v
    · rw [step]
      exact ih _ hnd.2 ht


/-- Evaluation of a successful approve: both saves succeed, the patient's
fields become the `Object.assign` merge and the request becomes APPROVED. -/
theorem approve_ok_state (s : Store) (reqId : Nat) (r : EditRequest) (p : Patient)
    (hreq : s.requests.find? (fun q => q.id == reqId) = some r)
    (hpend : r.status = .pending)
    (hpat : s.patients.find? (fun q => q.id == r.patientId) = some p) :
    approveRun "SUPER_ADMIN" s reqId true true =
      (.ok (objAssign p.fields r.requestedChanges),
       { patients := s.patients.map (fun q =>
           if q.id == p.id then { q with fields := objAssign p.fields r.requestedChanges } else q),
         requests := s.requests.map (fun q =>
           if q.id == r.id then { q with status := .approved } else q) }) := by
  simp [approveRun, hreq, hpend, hpat]

/-- Evaluation of an approve whose patient save fails: the handler stops with
the store untouched. -/
theorem approve_patient_save_fails (s : Store) (reqId : Nat) (r : EditRequest)
    (p : Patient) (rOk : Bool)
    (hreq : s.requests.find? (fun q => q.id == reqId) = some r)
    (hpend : r.status = .pending)
    (hpat : s.patients.find? (fun q => q.id == r.patientId) = some p) :
    approveRun "SUPER_ADMIN" s reqId false rOk = (.error .saveError, s) := by
  simp [approveRun, hreq, hpend, hpat]

/-- Evaluation of an approve whose request save fails after the patient save
succeeded: the patient mutation is already persisted, the request is not. -/
theorem approve_request_save_fails (s : Store) (reqId : Nat) (r : EditRequest)
    (p : Patient)
    (hreq : s.requests.find? (fun q => q.id == reqId) = some r)
    (hpend : r.status = .pending)
    (hpat : s.patients.find? (fun q => q.id == r.patientId) = some p) :
    approveRun "SUPER_ADMIN" s reqId true false =
      (.error .saveError,
       { s with patients := s.patients.map (fun q =>
           if q.id == p.id then { q with fields := objAssign p.fields r.requestedChanges } else q) }) := by
  simp [approveRun, hreq, hpend, hpat]

/-- Evaluation of a successful reject. -/
theorem reject_ok_state (s : Store) (reqId : Nat) (r : EditRequest)
    (hreq : s.requests.find? (fun q => q.id == reqId) = some r)
    (hpend : r.status = .pending) :
    rejectRun "SUPER_ADMIN" s reqId =
      (.ok (), { s with requests := s.requests.map (fun q =>
          if q.id == r.id then { q with status := .rejected } else q) }) := by
  simp [rejectRun, hreq, hpend]

/-- The patient-save map step keeps ids, so `find?` by id commutes with it. -/
theorem find?_patients_update (l : List Patient) (pid target : Nat)
    (nf : List (String × JsonVal)) :
    (l.map (fun q => if q.id == target then { q with fields := nf } else q)).find?
        (fun q => q.id == pid) =
      (l.find? (fun q => q.id == pid)).map
        (fun q => if q.id == target then { q with fields := nf } else q) := by
  apply find?_map_keyed
  intro q
  by_cases hq : q.id = target <;> simp [hq]

/-- The request-save map step keeps ids, so `find?` by id commutes with it. -/
theorem find?_requests_update (l : List EditRequest) (rid target : Nat)
    (st : Status) :
    (l.map (fun q => if q.id == target then { q with status := st } else q)).find?
        (fun q => q.id == rid) =
      (l.find? (fun q => q.id == rid)).map
        (fun q => if q.id == target then { q with status := st } else q) := by
  apply find?_map_keyed
  intro q
  by_cases hq : q.id = target <;> simp [hq]

/-- C1 amended: approving a request sets every proposed field to exactly the
proposed value — an object-valued proposal replaces the record's nested
object wholesale, dropping the sub-keys it does not mention — while fields
not named in the payload keep their values. -/
theorem approve_applies_changes_wholesale (s : Store) (reqId : Nat)
    (r : EditRequest) (p : Patient)
    (hreq : s.requests.find? (fun q => q.id == reqId) = some r)
    (hpend : r.status = .pending)
    (hpat : s.patients.find? (fun q => q.id == r.patientId) = some p)
    (hnd : (r.requestedChanges.map Prod.fst).Nodup) :
    (approveRun "SUPER_ADMIN" s reqId true true).1 =
      .ok (objAssign p.fields r.requestedChanges) ∧
    (approveRun "SUPER_ADMIN" s reqId true true).2.patients.find?
        (fun q => q.id == r.patientId) =
      some { p with fields := objAssign p.fields r.requestedChanges } ∧
    (∀ k v, (k, v) ∈ r.requestedChanges →
      lookupField (objAssign p.fields r.requestedChanges) k = some v) ∧
    (∀ k, k ∉ r.requestedChanges.map Prod.fst →
      lookupField (objAssign p.fields r.requestedChanges) k = lookupField p.fields k) := by
  have hrun := approve_ok_state s reqId r p hreq hpend hpat
  refine ⟨by rw [hrun], ?_, ?_, ?_⟩
  · rw [hrun]
    simp only
    rw [find?_patients_update, hpat]
    simp
  · intro k v hm
    exact lookupField_objAssign_of_mem _ _ _ _ hnd hm
  · intro k hk
    exact lookupField_objAssign_of_not_mem _ _ _ hk

/-- Witness for `approve_applies_changes_wholesale` at Scenario B. -/
theorem approve_applies_changes_wholesale_witness :
    (approveRun "SUPER_ADMIN" scenarioBStore 1 true true).1 =
      .ok (objAssign alicePatient.fields contactRequest.requestedChanges) ∧
    lookupField (objAssign alicePatient.fields contactRequest.requestedChanges)
      "contact" = some (.obj [("phone", .str "222")]) := by
  have h := approve_applies_changes_wholesale scenarioBStore 1 contactRequest
    alicePatient rfl rfl rfl (by decide)
  exact ⟨h.1, h.2.2.1 "contact" (.obj [("phone", .str "222")]) (by simp [contactRequest])⟩

/-- C2 amended: approval performs a generic property copy — every key of
`proposedChanges`, whatever it names (the editable schema is never
consulted), is written onto the record and the call succeeds; in particular
ownership fields can be altered by a crafted payload, and no
`InvalidFieldError` is ever produced. -/
theorem approve_copies_arbitrary_keys (s : Store) (reqId : Nat)
    (r : EditRequest) (p : Patient)
    (hreq : s.requests.find? (fun q => q.id == reqId) = some r)
    (hpend : r.status = .pending)
    (hpat : s.patients.find? (fun q => q.id == r.patientId) = some p)
    (hnd : (r.requestedChanges.map Prod.fst).Nodup) :
    (approveRun "SUPER_ADMIN" s reqId true true).1 =
      .ok (objAssign p.fields r.requestedChanges) ∧
    (∀ k v, (k, v) ∈ r.requestedChanges →
      ((approveRun "SUPER_ADMIN" s reqId true true).2.patients.find?
          (fun q => q.id == r.patientId)).map (fun q => lookupField q.fields k) =
        some (some v)) := by
  have hrun := approve_ok_state s reqId r p hreq hpend hpat
  refine ⟨by rw [hrun], ?_⟩
  intro k v hm
  rw [hrun]
  simp only
  rw [find?_patients_update, hpat]
  simp [lookupField_objAssign_of_mem _ _ _ _ hnd hm]

/-- Witness for `approve_copies_arbitrary_keys`: the ownership field
`hospital` is rewritten by a crafted payload. -/
theorem approve_copies_arbitrary_keys_witness :
    ((approveRun "SUPER_ADMIN" hijackStore 2 true true).2.patients.find?
        (fun q => q.id == hijackRequest.patientId)).map
      (fun q => lookupField q.fields "hospital") = some (some (.num 999)) := by
  have h := approve_copies_arbitrary_keys hijackStore 2 hijackRequest
    ownedPatient rfl rfl rfl (by decide)
  exact h.2 "hospital" (.num 999) (by simp [hijackRequest])

/-- An already-resolved request, for exercising the double-resolve guard. -/
def resolvedRequest : EditRequest :=
  { id := 4, patientId := 10,
    requestedChanges := [("name", .str "X")],
    status := .approved, createdAt := 2 }

/-- Store holding an already-approved request. -/
def resolvedStore : Store :=
  { patients := [alicePatient], requests := [resolvedRequest] }

/-- C3: a request resolves at most once. A non-PENDING request makes both
`approve` and `reject` fail with the already-processed error and leave the
store untouched (no merge); a successful `approve` or `reject` stores the
terminal APPROVED / REJECTED status, so every later resolve call on the same
request falls under the first conjunct. -/
theorem resolve_at_most_once (s : Store) (reqId : Nat) (r : EditRequest)
    (pOk rOk : Bool)
    (hreq : s.requests.find? (fun q => q.id == reqId) = some r) :
    (r.status ≠ .pending →
       approveRun "SUPER_ADMIN" s reqId pOk rOk = (.error .alreadyProcessed, s) ∧
       rejectRun "SUPER_ADMIN" s reqId = (.error .alreadyProcessed, s)) ∧
    (∀ v s', approveRun "SUPER_ADMIN" s reqId true true = (.ok v, s') →
       s'.requests.find? (fun q => q.id == reqId) =
         some { r with status := Status.approved }) ∧
    (∀ s', rejectRun "SUPER_ADMIN" s reqId = (.ok (), s') →
       s'.requests.find? (fun q => q.id == reqId) =
         some { r with status := Status.rejected }) := by
  refine ⟨?_, ?_, ?_⟩
  · intro hst
    constructor
    · simp [approveRun, hreq, hst]
    · simp [rejectRun, hreq, hst]
  · intro v s' hap
    by_cases hst : r.status = .pending
    · cases hpat : s.patients.find? (fun q => q.id == r.patientId) with
      | none =>
        rw [approveRun] at hap
        simp [hreq, hst, hpat] at hap
      | some p =>
        rw [approve_ok_state s reqId r p hreq hst hpat] at hap
        injection hap with h1 h2
        rw [← h2]
        simp only
        rw [find?_requests_update, hreq]
        simp
    · rw [approveRun] at hap
      simp [hreq, hst] at hap
  · intro s' hrj
    by_cases hst : r.status = .pending
    · rw [reject_ok_state s reqId r hreq hst] at hrj
      injection hrj with h1 h2
      rw [← h2]
      simp only
      rw [find?_requests_update, hreq]
      simp
    · rw [rejectRun] at hrj
      simp [hreq, hst] at hrj

/-- Witness for `resolve_at_most_once` on an already-approved request. -/
theorem resolve_at_most_once_witness :
    approveRun "SUPER_ADMIN" resolvedStore 4 true true =
      (.error .alreadyProcessed, resolvedStore) ∧
    rejectRun "SUPER_ADMIN" resolvedStore 4 =
      (.error .alreadyProcessed, resolvedStore) :=
  (resolve_at_most_once resolvedStore 4 resolvedRequest true true rfl).1 (by decide)

/-- A pending request and its target record, for the persistence-failure run. -/
def atomPatient : Patient := { id := 30, fields := [("name", .str "Carol")] }

/-- Request proposing a flat rename of `atomPatient`. -/
def atomRequest : EditRequest :=
  { id := 3, patientId := 30,
    requestedChanges := [("name", .str "Caroline")],
    status := .pending, createdAt := 1 }

/-- Store for the persistence-failure run. -/
def atomStore : Store := { patients := [atomPatient], requests := [atomRequest] }

/-- C4 counterexample: when the patient save succeeds and the request save
fails, the error response leaves the record updated while the request is
still PENDING — exactly the intermediate state the claim says is never
observable. -/
theorem approve_partial_state_cex :
    (approveRun "SUPER_ADMIN" atomStore 3 true false).1 = .error .saveError ∧
    ((approveRun "SUPER_ADMIN" atomStore 3 true false).2.patients.find?
        (fun p => p.id == 30)).map Patient.fields =
      some [("name", .str "Caroline")] ∧
    ((approveRun "SUPER_ADMIN" atomStore 3 true false).2.requests.find?
        (fun q => q.id == 3)).map EditRequest.status = some .pending :=
  ⟨rfl, rfl, rfl⟩

/-- C4 amended: the approve sequence is two separate persistence steps, not
one atomic operation. When both saves succeed the merged record and the
APPROVED status are both stored; when the record save fails nothing changes;
but when the record save succeeds and the status save fails, the updated
record persists while the request remains exactly as it was (still PENDING) —
an observable intermediate state. -/
theorem approve_two_step_persistence (s : Store) (reqId : Nat)
    (r : EditRequest) (p : Patient) (rOk : Bool)
    (hreq : s.requests.find? (fun q => q.id == reqId) = some r)
    (hpend : r.status = .pending)
    (hpat : s.patients.find? (fun q => q.id == r.patientId) = some p) :
    (approveRun "SUPER_ADMIN" s reqId true true).1 =
      .ok (objAssign p.fields r.requestedChanges) ∧
    (approveRun "SUPER_ADMIN" s reqId true true).2.requests.find?
        (fun q => q.id == reqId) = some { r with status := Status.approved } ∧
    (approveRun "SUPER_ADMIN" s reqId true true).2.patients.find?
        (fun q => q.id == r.patientId) =
      some { p with fields := objAssign p.fields r.requestedChanges } ∧
    approveRun "SUPER_ADMIN" s reqId false rOk = (.error .saveError, s) ∧
    (approveRun "SUPER_ADMIN" s reqId true false).1 = .error .saveError ∧
    (approveRun "SUPER_ADMIN" s reqId true false).2.patients.find?
        (fun q => q.id == r.patientId) =
      some { p with fields := objAssign p.fields r.requestedChanges } ∧
    (approveRun "SUPER_ADMIN" s reqId true false).2.requests = s.requests := by
  have hok := approve_ok_state s reqId r p hreq hpend hpat
  have hfail2 := approve_request_save_fails s reqId r p hreq hpend hpat
  refine ⟨by rw [hok], ?_, ?_, approve_patient_save_fails s reqId r p rOk hreq hpend hpat, by rw [hfail2], ?_, by rw [hfail2]⟩
  · rw [hok]
    simp only
    rw [find?_requests_update, hreq]
    simp
  · rw [hok]
    simp only
    rw [find?_patients_update, hpat]
    simp
  · rw [hfail2]
    simp only
    rw [find?_patients_update, hpat]
    simp

/-- Witness for `approve_two_step_persistence` at the concrete store. -/
theorem approve_two_step_persistence_witness :
    (approveRun "SUPER_ADMIN" atomStore 3 true true).1 =
      .ok (objAssign atomPatient.fields atomRequest.requestedChanges) ∧
    (approveRun "SUPER_ADMIN" atomStore 3 true false).2.requests =
      atomStore.requests := by
  have h := approve_two_step_persistence atomStore 3 atomRequest atomPatient
    false rfl rfl rfl
  exact ⟨h.1, h.2.2.2.2.2.2⟩

/-- C5: the `ensureSuperAdmin` middleware rejects every non-SUPER_ADMIN
caller of the four admin endpoints with the 403 error, before any handler
body runs, so the store is never touched. -/
theorem scoped_actor_forbidden (role : String) (s : Store) (reqId : Nat)
    (pOk rOk : Bool) (h : role ≠ "SUPER_ADMIN") :
    approveRun role s reqId pOk rOk = (.error .forbidden, s) ∧
    rejectRun role s reqId = (.error .forbidden, s) ∧
    getRequestsRoute role s = .error .forbidden ∧
    getCountRoute role s = .error .forbidden := by
  refine ⟨?_, ?_, ?_, ?_⟩ <;>
    simp [approveRun, rejectRun, getRequestsRoute, getCountRoute, h]

/-- Witness for `scoped_actor_forbidden` with a hospital-admin caller. -/
theorem scoped_actor_forbidden_witness :
    approveRun "HOSPITAL_ADMIN" scenarioBStore 1 true true =
      (.error .forbidden, scenarioBStore) ∧
    rejectRun "HOSPITAL_ADMIN" scenarioBStore 1 =
      (.error .forbidden, scenarioBStore) ∧
    getRequestsRoute "HOSPITAL_ADMIN" scenarioBStore = .error .forbidden ∧
    getCountRoute "HOSPITAL_ADMIN" scenarioBStore = .error .forbidden :=
  scoped_actor_forbidden "HOSPITAL_ADMIN" scenarioBStore 1 true true (by decide)

/-- A pending request whose target record was deleted. -/
def orphanRequest : EditRequest :=
  { id := 5, patientId := 99,
    requestedChanges := [("name", .str "Zed")],
    status := .pending, createdAt := 3 }

/-- Store holding the orphaned pending request. -/
def orphanStore : Store :=
  { patients := [alicePatient], requests := [orphanRequest] }

/-- C6: approving a PENDING request whose patient no longer exists fails with
the 404 patient-not-found error and changes nothing: the store is returned
as-is, so the request is still found with status PENDING. -/
theorem approve_missing_record (s : Store) (reqId : Nat) (r : EditRequest)
    (pOk rOk : Bool)
    (hreq : s.requests.find? (fun q => q.id == reqId) = some r)
    (hpend : r.status = .pending)
    (hpat : s.patients.find? (fun q => q.id == r.patientId) = none) :
    approveRun "SUPER_ADMIN" s reqId pOk rOk = (.error .patientNotFound, s) ∧
    (approveRun "SUPER_ADMIN" s reqId pOk rOk).2.requests.find?
        (fun q => q.id == reqId) = some r ∧
    r.status = .pending := by
  have h1 : approveRun "SUPER_ADMIN" s reqId pOk rOk = (.error .patientNotFound, s) := by
    simp [approveRun, hreq, hpend, hpat]
  exact ⟨h1, by rw [h1]; exact hreq, hpend⟩

/-- Witness for `approve_missing_record` at the orphaned request. -/
theorem approve_missing_record_witness :
    approveRun "SUPER_ADMIN" orphanStore 5 true true =
      (.error .patientNotFound, orphanStore) ∧
    (approveRun "SUPER_ADMIN" orphanStore 5 true true).2.requests.find?
        (fun q => q.id == 5) = some orphanRequest ∧
    orphanRequest.status = .pending :=
  approve_missing_record orphanStore 5 orphanRequest true true rfl rfl rfl

/-- The listing's sort really sorts by descending `createdAt`. -/
theorem sortDesc_sorted (l : List EditRequest) : (sortDesc l).Sorted newerEq :=
  List.sorted_insertionSort newerEq l

/-- The listing's sort is a permutation of its input. -/
theorem sortDesc_perm (l : List EditRequest) : (sortDesc l).Perm l :=
  List.perm_insertionSort newerEq l

/-- C7: for an Elevated caller the combined server-plus-client listing
pipeline returns exactly the PENDING requests whose target record still
exists, each populated with that record, ordered by `createdAt` descending. -/
theorem listPending_pending_sorted_filtered (s : Store) :
    listPendingCombined "SUPER_ADMIN" s = .ok (adminPendingView s) ∧
    (∀ x : EditRequest × Option Patient, x ∈ adminPendingView s ↔
       (x.1 ∈ s.requests ∧ x.1.status = .pending ∧
        x.2 = s.patients.find? (fun p => p.id == x.1.patientId) ∧
        x.2.isSome = true)) ∧
    (adminPendingView s).Pairwise (fun a b => b.1.createdAt ≤ a.1.createdAt) := by
  refine ⟨rfl, ?_, ?_⟩
  · intro x
    constructor
    · intro hx
      simp only [adminPendingView, fetchRequestsClient, serverPendingList] at hx
      obtain ⟨hmem, hsome⟩ := List.mem_filter.mp hx
      obtain ⟨a, ha, hax⟩ := List.mem_map.mp hmem
      have ha' : a ∈ pendingOf s := ((sortDesc_perm (pendingOf s)).mem_iff).mp ha
      obtain ⟨har, hast⟩ := List.mem_filter.mp ha'
      have hx1 : x.1 = a := by rw [← hax]; rfl
      have hx2 : x.2 = s.patients.find? (fun p => p.id == a.patientId) := by
        rw [← hax]; rfl
      refine ⟨?_, ?_, ?_, hsome⟩
      · rw [hx1]; exact har
      · rw [hx1]; simpa using hast
      · rw [hx2, hx1]
    · rintro ⟨h1, h2, h3, h4⟩
      simp only [adminPendingView, fetchRequestsClient, serverPendingList]
      apply List.mem_filter.mpr
      refine ⟨?_, h4⟩
      apply List.mem_map.mpr
      refine ⟨x.1, ?_, ?_⟩
      · apply ((sortDesc_perm (pendingOf s)).mem_iff).mpr
        exact List.mem_filter.mpr ⟨h1, by simp [h2]⟩
      · simp only [populateP]
        rw [← h3]
  · have hs := sortDesc_sorted (pendingOf s)
    have hmap : ((sortDesc (pendingOf s)).map (populateP s)).Pairwise
        (fun a b => b.1.createdAt ≤ a.1.createdAt) :=
      List.pairwise_map.mpr hs
    exact List.Pairwise.filter _ hmap

/-- Scenario E fixture: an old pending request targeting Alice. -/
def reqOld : EditRequest :=
  { id := 11, patientId := 10,
    requestedChanges := [("name", .str "A")],
    status := .pending, createdAt := 1 }

/-- Scenario E fixture: the newest pending request, targeting Bob. -/
def reqNew : EditRequest :=
  { id := 12, patientId := 20,
    requestedChanges := [("fullName", .str "B")],
    status := .pending, createdAt := 9 }

/-- Scenario E fixture: a pending request whose patient was deleted. -/
def reqOrphan : EditRequest :=
  { id := 13, patientId := 77,
    requestedChanges := [("name", .str "C")],
    status := .pending, createdAt := 5 }

/-- Scenario E store: three PENDING requests, one of them orphaned. -/
def scenarioEStore : Store :=
  { patients := [alicePatient, ownedPatient],
    requests := [reqOld, reqOrphan, reqNew] }

/-- Witness for `listPending_pending_sorted_filtered` at Scenario E. -/
theorem listPending_pending_sorted_filtered_witness :
    listPendingCombined "SUPER_ADMIN" scenarioEStore =
      .ok (adminPendingView scenarioEStore) ∧
    (adminPendingView scenarioEStore).Pairwise
      (fun a b => b.1.createdAt ≤ a.1.createdAt) := by
  have h := listPending_pending_sorted_filtered scenarioEStore
  exact ⟨h.1, h.2.2⟩

/-- C8: the count endpoint reports the raw number of PENDING requests in
storage — the length of the listing payload before the client's orphan
filter — so it can exceed the length of the filtered list the admin page
shows, as it does on the Scenario E store (count 3, list length 2). -/
theorem countPending_counts_raw (s : Store)
    (l : List (EditRequest × Option Patient))
    (hl : getRequestsRoute "SUPER_ADMIN" s = .ok l) :
    getCountRoute "SUPER_ADMIN" s = .ok l.length ∧
    (∀ lf, listPendingCombined "SUPER_ADMIN" s = .ok lf → lf.length ≤ l.length) ∧
    getCountRoute "SUPER_ADMIN" scenarioEStore = .ok 3 ∧
    (adminPendingView scenarioEStore).length = 2 := by
  simp only [getRequestsRoute, if_neg] at hl
  rw [if_neg (by simp)] at hl
  injection hl with hl'
  have hlen : l.length = (pendingOf s).length := by
    rw [← hl', serverPendingList, List.length_map]
    exact (sortDesc_perm _).length_eq
  refine ⟨?_, ?_, rfl, rfl⟩
  · simp [getCountRoute, hlen]
  · intro lf hlf
    simp only [listPendingCombined, getRequestsRoute] at hlf
    rw [if_neg (by simp)] at hlf
    simp only [Except.map] at hlf
    injection hlf with hlf'
    rw [← hlf', ← hl']
    exact List.length_filter_le _ _

/-- Witness for `countPending_counts_raw` at Scenario E. -/
theorem countPending_counts_raw_witness :
    getCountRoute "SUPER_ADMIN" scenarioEStore =
      .ok (serverPendingList scenarioEStore).length ∧
    (adminPendingView scenarioEStore).length = 2 := by
  have h := countPending_counts_raw scenarioEStore
    (serverPendingList scenarioEStore) rfl
  exact ⟨h.1, h.2.2.2⟩

/-- A proposed entry renders a block exactly when `shouldEmit` says so. -/
theorem renderEntry_isSome (patient : List (String × JsonVal))
    (kv : String × JsonVal) :
    (renderEntry patient kv).isSome = shouldEmit patient kv := by
  obtain ⟨k, nv⟩ := kv
  cases nv <;>
    first
      | rfl
      | (simp only [renderEntry, shouldEmit]
         split <;> simp_all)

/-- A rendered block carries the proposed entry's field name. -/
theorem renderEntry_field (patient : List (String × JsonVal))
    (kv : String × JsonVal) (c : RenderedChange)
    (h : renderEntry patient kv = some c) : c.field = kv.1 := by
  obtain ⟨k, nv⟩ := kv
  cases nv <;>
    first
      | (simp only [renderEntry] at h
         cases h
         rfl)
      | (simp only [renderEntry] at h
         split at h
         · cases h
         · cases h
           rfl)

/-- The rendered block labels are the proposed keys that should render, in
payload order. -/
theorem formatChanges_fields (patient changes : List (String × JsonVal)) :
    (formatChanges changes patient).map RenderedChange.field =
      (changes.filter (shouldEmit patient)).map Prod.fst := by
  induction changes with
  | nil => rfl
  | cons hd t ih =>
    show (List.filterMap (renderEntry patient) (hd :: t)).map RenderedChange.field = _
    rw [List.filterMap_cons, List.filter_cons]
    cases h : renderEntry patient hd with
    | none =>
      have hse : shouldEmit patient hd = false := by
        rw [← renderEntry_isSome, h]
        rfl
      rw [hse]
      simpa using ih
    | some c =>
      have hse : shouldEmit patient hd = true := by
        rw [← renderEntry_isSome, h]
        rfl
      rw [hse]
      simp only [if_true, List.map_cons]
      rw [renderEntry_field patient hd c h]
      exact congrArg (List.cons hd.1) ih

/-- Inversion: a flat card comes from a non-object proposal for that field
whose strict comparison with the current value failed. -/
theorem renderEntry_flat_inv (patient : List (String × JsonVal))
    (kv : String × JsonVal) (k : String) (ov : Option JsonVal) (nv : JsonVal)
    (h : renderEntry patient kv = some (.flat k ov nv)) :
    kv = (k, nv) ∧ ov = lookupField patient k ∧ jsStrictEq ov nv = false := by
  obtain ⟨k', nv'⟩ := kv
  cases nv' <;>
    first
      | (simp only [renderEntry] at h
         cases h)
      | (simp only [renderEntry] at h
         split at h
         · cases h
         · next hc =>
             injection h with h'
             injection h' with h1 h2 h3
             subst h1
             subst h2
             subst h3
             exact ⟨rfl, rfl, by simpa using hc⟩)

/-- Inversion: a nested container block comes from an object-valued proposal
for that field, and its rows are that proposal's differing sub-rows. -/
theorem renderEntry_nested_inv (patient : List (String × JsonVal))
    (kv : String × JsonVal) (k : String)
    (rows : List (String × Option JsonVal × JsonVal))
    (h : renderEntry patient kv = some (.nested k rows)) :
    ∃ subs, kv = (k, JsonVal.obj subs) ∧
      rows = nestedRows (lookupField patient k) subs := by
  obtain ⟨k', nv'⟩ := kv
  cases nv' with
  | obj subs =>
    simp only [renderEntry] at h
    injection h with h'
    injection h' with h1 h2
    subst h1
    exact ⟨subs, rfl, h2.symm⟩
  | null =>
    simp only [renderEntry] at h
    split at h
    · cases h
    · cases h
  | bool b =>
    simp only [renderEntry] at h
    split at h
    · cases h
    · cases h
  | num n =>
    simp only [renderEntry] at h
    split at h
    · cases h
    · cases h
  | str st =>
    simp only [renderEntry] at h
    split at h
    · cases h
    · cases h

/-- Inversion: a nested row comes from the sub-entry with its key, carries
`subOldOf` as its old side, and renders only because the two sides differ. -/
theorem rowEntry_inv (oldValue : Option JsonVal) (kv : String × JsonVal)
    (sk : String) (sov : Option JsonVal) (snv : JsonVal)
    (h : rowEntry oldValue kv = some (sk, sov, snv)) :
    kv = (sk, snv) ∧ sov = subOldOf oldValue sk ∧
      stringifyEq sov snv = false := by
  unfold rowEntry at h
  split at h
  · cases h
  · next hc =>
    injection h with h'
    injection h' with h1 h2'
    injection h2' with h2 h3
    subst h1
    subst h2
    subst h3
    exact ⟨rfl, rfl, by simpa using hc⟩

/-- C9 counterexample: with current record `{contact:{phone:"111"}}` and
proposal `{contact:{phone:"111"}}` — deep-equal, so per the claim the field
would be omitted — `formatChanges` still renders a container block for
`contact` (with zero rows): a no-op entry is surfaced to the reviewer. -/
theorem formatChanges_noop_container_cex :
    formatChanges [("contact", .obj [("phone", .str "111")])]
        [("contact", .obj [("phone", .str "111")])] =
      [.nested "contact" []] ∧
    formatChanges [("contact", .obj [("phone", .str "111")])]
        [("contact", .obj [("phone", .str "111")])] ≠ [] := by
  constructor
  · rfl
  · intro h
    rw [show formatChanges [("contact", .obj [("phone", .str "111")])]
        [("contact", .obj [("phone", .str "111")])] =
        [.nested "contact" []] from rfl] at h
    exact List.noConfusion h

/-- C9 amended: `formatChanges` omits every flat field whose proposed value
strictly equals the current one and every nested sub-field whose proposed
sub-value is `JSON.stringify`-equal to the current one, and emits exactly one
block per remaining field (in payload order) and one row per differing
sub-field; however an object-valued proposal always emits its container
block, even when every sub-value is unchanged. -/
theorem formatChanges_diff_spec (changes patient : List (String × JsonVal)) :
    (∀ k ov nv, RenderedChange.flat k ov nv ∈ formatChanges changes patient →
       (k, nv) ∈ changes ∧ ov = lookupField patient k ∧
       jsStrictEq ov nv = false) ∧
    (∀ k rows, RenderedChange.nested k rows ∈ formatChanges changes patient →
       ∃ subs, (k, JsonVal.obj subs) ∈ changes ∧
         rows = nestedRows (lookupField patient k) subs) ∧
    (∀ k subs, (k, JsonVal.obj subs) ∈ changes →
       RenderedChange.nested k (nestedRows (lookupField patient k) subs) ∈
         formatChanges changes patient) ∧
    (∀ oldValue subs sk sov snv,
       (sk, sov, snv) ∈ nestedRows oldValue subs ↔
         ((sk, snv) ∈ subs ∧ sov = subOldOf oldValue sk ∧
          stringifyEq sov snv = false)) ∧
    ((changes.map Prod.fst).Nodup →
       ((formatChanges changes patient).map RenderedChange.field).Nodup) ∧
    (formatChanges changes patient).map RenderedChange.field =
      (changes.filter (shouldEmit patient)).map Prod.fst := by
  refine ⟨?_, ?_, ?_, ?_, ?_, formatChanges_fields patient changes⟩
  · intro k ov nv h
    obtain ⟨kv, hkv, hr⟩ := List.mem_filterMap.mp h
    obtain ⟨h1, h2, h3⟩ := renderEntry_flat_inv patient kv k ov nv hr
    exact ⟨h1 ▸ hkv, h2, h3⟩
  · intro k rows h
    obtain ⟨kv, hkv, hr⟩ := List.mem_filterMap.mp h
    obtain ⟨subs, h1, h2⟩ := renderEntry_nested_inv patient kv k rows hr
    exact ⟨subs, h1 ▸ hkv, h2⟩
  · intro k subs h
    exact List.mem_filterMap.mpr ⟨(k, .obj subs), h, rfl⟩
  · intro oldValue subs sk sov snv
    constructor
    · intro h
      obtain ⟨kv, hkv, hr⟩ := List.mem_filterMap.mp h
      obtain ⟨h1, h2, h3⟩ := rowEntry_inv oldValue kv sk sov snv hr
      exact ⟨h1 ▸ hkv, h2, h3⟩
    · rintro ⟨h1, h2, h3⟩
      apply List.mem_filterMap.mpr
      refine ⟨(sk, snv), h1, ?_⟩
      unfold rowEntry
      rw [← h2, if_neg (by simp [h3])]
  · intro hnd
    rw [formatChanges_fields patient changes]
    exact (List.Sublist.map Prod.fst (List.filter_sublist changes)).nodup hnd

/-- Witness for `formatChanges_diff_spec` at a concrete nested proposal. -/
theorem formatChanges_diff_spec_witness :
    RenderedChange.nested "contact"
        (nestedRows (lookupField alicePatient.fields "contact")
          [("phone", .str "222")]) ∈
      formatChanges [("contact", .obj [("phone", .str "222")])]
        alicePatient.fields ∧
    ((formatChanges [("contact", .obj [("phone", .str "222")])]
        alicePatient.fields).map RenderedChange.field).Nodup := by
  have h := formatChanges_diff_spec [("contact", .obj [("phone", .str "222")])]
    alicePatient.fields
  exact ⟨h.2.2.1 "contact" [("phone", .str "222")] (by simp),
         h.2.2.2.2.1 (by decide)⟩

/-- C10: the old-value cell renders `String(x || 'N/A')`, so every falsy
current value (empty string, 0, false, null) displays exactly like a
genuinely absent (undefined) one — both show the `'N/A'` sentinel. -/
theorem falsy_old_displays_na (v : JsonVal) (h : v.truthy = false) :
    renderOld (some v) = renderOld none ∧ renderOld none = "N/A" := by
  simp [renderOld, h]

/-- Witness for `falsy_old_displays_na` at the empty string. -/
theorem falsy_old_displays_na_witness :
    (JsonVal.str "").truthy = false ∧
    (renderOld (some (.str "")) = renderOld none ∧ renderOld none = "N/A") :=
  ⟨by decide, falsy_old_displays_na (.str "") (by decide)⟩
